import Mathlib

/-!
Verification development for the HALAGEL manufacturing dashboard.

The definitions below are a shallow embedding of the TypeScript source:

* `src/components/modals/InputModal.tsx` — entry creation / actual recording /
  editing (`handleSubmit`), including its audit-log diff computation;
* `src/components/pages/Dashboard.tsx` — month/process aggregation
  (`dashboardData`), per-day grouping (`dailyGroups`) and CSV export
  (`downloadCSV`);
* `src/components/pages/UserManagement.tsx` — user deletion with its
  last-admin guard, and the `InputPlan` submission path.

JavaScript strings are modeled as Lean `String`, JS numbers holding integer
quantities as `Int` (the numeric form fields, read in the source as
`parseInt(x || '0')` from validated `type="number"` inputs, are modeled as
their parsed integer values), and fields that can be `undefined` in the
source records (`batchNo`, `manpower`) as `Option`.  The floating-point
efficiency ratio is modeled exactly over `ℚ`.
-/

/-! ## JavaScript string primitives used by the source -/

/-- The character list of a string with leading and trailing whitespace
removed: the list-level model of JavaScript `String.prototype.trim`. -/
def trimList (l : List Char) : List Char :=
  ((l.dropWhile Char.isWhitespace).reverse.dropWhile Char.isWhitespace).reverse

/-- JavaScript `s.trim()`. -/
def jsTrim (s : String) : String := ⟨trimList s.data⟩

/-- JavaScript `s.split(' ')[0]`: the text before the first space. -/
def jsSplitSpaceHead (s : String) : String := ⟨s.data.takeWhile (fun c => c ≠ ' ')⟩

/-- JavaScript `s.substring(0, n)`. -/
def jsSubstring (s : String) (n : Nat) : String := ⟨s.data.take n⟩

/-- JavaScript `s.startsWith(pre)`. -/
def jsStartsWith (s pre : String) : Bool := pre.data.isPrefixOf s.data

/-- JavaScript `s || d` for strings: `d` when `s` is empty (falsy). -/
def jsStrOrS (s d : String) : String := if s = "" then d else s

/-- JavaScript `o || d` where `o` is a possibly-`undefined` string field. -/
def jsStrOr (o : Option String) (d : String) : String :=
  match o with
  | none => d
  | some s => if s = "" then d else s

/-- JavaScript `o || d` where `o` is a possibly-`undefined` number field:
`undefined` and `0` are falsy. -/
def jsIntOr (o : Option Int) (d : Int) : Int :=
  match o with
  | none => d
  | some n => if n = 0 then d else n

/-- How a possibly-`undefined` string renders inside `Array.prototype.join`:
`undefined` becomes the empty string. -/
def joinStrCell (o : Option String) : String := o.getD ""

/-- How a possibly-`undefined` number renders inside `Array.prototype.join`. -/
def joinIntCell (o : Option Int) : String :=
  match o with
  | none => ""
  | some n => toString n

/-- `InputModal.tsx` line 36/71/82: `(date || '').trim().split(' ')[0]` —
the normalization the entry editor applies to every incoming date. -/
def normalizeInputDate (s : String) : String := jsSplitSpaceHead (jsTrim s)

/-- `Dashboard.tsx` lines 73/76/82/83: `d.date.trim().substring(0, 10)` —
the normalization the aggregator applies to dates. -/
def normalizeDashDate (s : String) : String := jsSubstring (jsTrim s) 10

/-- `Dashboard.tsx` line 41: `(d.date || '').trim().substring(0, 7)` —
the month key of an entry date. -/
def monthKey (s : String) : String := jsSubstring (jsTrim s) 7

/-! ## Data model (`types.ts` is imported by every source file; its record
shapes are reconstructed from the fields the source reads and writes) -/

/-- One production record, both plan and actual (`ProductionEntry` in the
source).  `batchNo` and `manpower` are absent (`undefined`) on records
created by the plan branch, hence `Option`. -/
structure ProductionEntry where
  id : String
  date : String
  category : String
  process : String
  productName : String
  planQuantity : Int
  actualQuantity : Int
  unit : String
  batchNo : Option String
  manpower : Option Int
  lastUpdatedBy : String
  updatedAt : String
deriving DecidableEq

/-- A calendar holiday (`OffDay` in the source). -/
structure OffDay where
  date : String
  description : String
deriving DecidableEq

/-- A staff account (`User` in the source); the role is the literal string
the source compares against (`'admin'`, `'manager'`, `'planner'`,
`'operator'`). -/
structure User where
  id : String
  name : String
  username : String
  email : String
  role : String
  password : String
deriving DecidableEq

/-- An audit log line (`addLog` payload in the source). -/
structure LogEntry where
  userId : String
  userName : String
  action : String
  details : String
deriving DecidableEq

/-- Modelled from the spec: `StorageService` is not under `src/` (only its
callers are).  Per spec §3/§6 the persistence boundary holds the production
collection and a parallel append-only audit log; `saveProductionData`
replaces the collection wholesale and `addLog` appends exactly one line.
The store is modeled as this explicit state record, threaded through the
operations. -/
structure StoreState where
  data : List ProductionEntry
  logs : List LogEntry
deriving DecidableEq

/-! ## Dashboard aggregation (`Dashboard.tsx`, `dashboardData` /
`dailyGroups` / `downloadCSV`) -/

/-- `Dashboard.tsx` line 30: `productionData.filter(d => d && d.category ===
category && d.date)` — category filter plus non-empty-date guard. -/
def relevantEntries (data : List ProductionEntry) (category : String) :
    List ProductionEntry :=
  data.filter (fun d => d.category = category ∧ d.date ≠ "")

/-- `Dashboard.tsx` line 56: `relevant.sort((a,b) => (b.date ||
'').localeCompare(a.date || ''))` — the flat entry list sorted by date
descending (locale comparison on these ASCII date keys is the ordinary
lexicographic string order). -/
def filteredData (data : List ProductionEntry) (category : String) :
    List ProductionEntry :=
  (relevantEntries data category).insertionSort (fun a b => b.date ≤ a.date)

/-- The entries of `relevantEntries` whose month key equals the selected
month — the body of the `forEach` guard at `Dashboard.tsx` line 42. -/
def monthEntries (data : List ProductionEntry) (category month : String) :
    List ProductionEntry :=
  (relevantEntries data category).filter (fun d => monthKey d.date = month)

/-- `Dashboard.tsx` line 43: `selectedMonthPlan += (d.planQuantity || 0)`
accumulated over the month's relevant entries. -/
def selectedMonthPlan (data : List ProductionEntry) (category month : String) : Int :=
  (monthEntries data category month).foldl (fun s d => s + d.planQuantity) 0

/-- `Dashboard.tsx` line 44: `selectedMonthActual += (d.actualQuantity || 0)`
accumulated over the month's relevant entries. -/
def selectedMonthActual (data : List ProductionEntry) (category month : String) : Int :=
  (monthEntries data category month).foldl (fun s d => s + d.actualQuantity) 0

/-- `Dashboard.tsx` line 60: `selectedMonthPlan > 0 ? (selectedMonthActual /
selectedMonthPlan) * 100 : 0`, with the floating-point division modeled
exactly over `ℚ`. -/
def efficiency (plan actual : Int) : ℚ :=
  if 0 < plan then ((actual : ℚ) / (plan : ℚ)) * 100 else 0

/-- The `efficiency` figure of `selectedMonthStats` (`Dashboard.tsx` line
57-61). -/
def selectedMonthEfficiency (data : List ProductionEntry) (category month : String) : ℚ :=
  efficiency (selectedMonthPlan data category month)
    (selectedMonthActual data category month)

/-- One value of `selectedMonthProcessMap` (`Dashboard.tsx` line 35). -/
structure ProcBucket where
  process : String
  Plan : Int
  Actual : Int
deriving DecidableEq

/-- `Dashboard.tsx` line 46: `const procName = d.process || 'Other'`. -/
def procNameOf (d : ProductionEntry) : String :=
  if d.process = "" then "Other" else d.process

/-- `Dashboard.tsx` lines 47-51: if the process map has a bucket keyed
`name`, add the entry's quantities to it, otherwise leave the map alone.
The JS `Map` is modeled as the bucket list in insertion order; the
`PROCESSES` enumeration that seeds it is duplicate-free, so updating every
bucket whose key matches coincides with the single `Map` update. -/
def addToBuckets (bs : List ProcBucket) (name : String) (pl ac : Int) :
    List ProcBucket :=
  if bs.any (fun b => b.process = name) then
    bs.map (fun b =>
      if b.process = name then { b with Plan := b.Plan + pl, Actual := b.Actual + ac }
      else b)
  else bs

/-- `Dashboard.tsx` lines 35-53 and 62: seed one zero bucket per known
process (`PROCESSES.forEach`), then fold the month's relevant entries into
the buckets; `chartData` is the resulting bucket list in insertion order.
The `PROCESSES` constant lives outside `src/`, so the enumeration is a
parameter. -/
def chartData (processes : List String) (data : List ProductionEntry)
    (category month : String) : List ProcBucket :=
  (monthEntries data category month).foldl
    (fun bs d => addToBuckets bs (procNameOf d) d.planQuantity d.actualQuantity)
    (processes.map (fun p => { process := p, Plan := 0, Actual := 0 }))

/-- The plan quantities an entry list contributes to the bucket keyed `p`:
the sum over its entries whose `procNameOf` is `p`. -/
def planSumFor (l : List ProductionEntry) (p : String) : Int :=
  ((l.filter (fun d => procNameOf d = p)).map ProductionEntry.planQuantity).sum

/-- The actual quantities an entry list contributes to the bucket keyed
`p`. -/
def actualSumFor (l : List ProductionEntry) (p : String) : Int :=
  ((l.filter (fun d => procNameOf d = p)).map ProductionEntry.actualQuantity).sum

/-- The plan quantities contributed to bucket `p` counting only entries
whose process name is among the known processes (used to state the fold
invariant of `chartData`). -/
def planSumIn (processes : List String) (l : List ProductionEntry) (p : String) : Int :=
  ((l.filter (fun d => procNameOf d = p ∧ procNameOf d ∈ processes)).map
    ProductionEntry.planQuantity).sum

/-- The actual quantities contributed to bucket `p` counting only entries
whose process name is among the known processes. -/
def actualSumIn (processes : List String) (l : List ProductionEntry) (p : String) : Int :=
  ((l.filter (fun d => procNameOf d = p ∧ procNameOf d ∈ processes)).map
    ProductionEntry.actualQuantity).sum

/-- One element of the `dailyGroups` view (`Dashboard.tsx` lines 86-92). -/
structure DayGroup where
  date : String
  totalActualForDate : Int
  entries : List ProductionEntry
  isOffDay : Bool
  offDayName : String
deriving DecidableEq

/-- `Dashboard.tsx` line 68: the sorted base data restricted to the selected
month (`d && d.date && d.date.trim().startsWith(selectedMonth)`). -/
def monthFilteredEntries (data : List ProductionEntry) (category month : String) :
    List ProductionEntry :=
  (filteredData data category).filter
    (fun d => d.date ≠ "" ∧ jsStartsWith (jsTrim d.date) month)

/-- `Dashboard.tsx` line 69: the off-days restricted to the selected month. -/
def monthFilteredOffDays (offDays : List OffDay) (month : String) : List OffDay :=
  offDays.filter (fun od => od.date ≠ "" ∧ jsStartsWith (jsTrim od.date) month)

/-- `Dashboard.tsx` lines 71-79: the `Set` of normalized dates of the
month's entries and off-days, sorted descending (`(b ||
'').localeCompare(a || '')`). -/
def sortedDates (data : List ProductionEntry) (offDays : List OffDay)
    (category month : String) : List String :=
  (((monthFilteredEntries data category month).map (fun d => normalizeDashDate d.date)
      ++ (monthFilteredOffDays offDays month).map (fun od => normalizeDashDate od.date)).dedup).insertionSort
    (fun a b => b ≤ a)

/-- `Dashboard.tsx` lines 81-93: the group built for one normalized date
key. -/
def mkDayGroup (data : List ProductionEntry) (offDays : List OffDay)
    (category month dateKey : String) : DayGroup :=
  let entriesForDate := (monthFilteredEntries data category month).filter
    (fun d => normalizeDashDate d.date = dateKey)
  let offDayInfo := (monthFilteredOffDays offDays month).find?
    (fun od => normalizeDashDate od.date = dateKey)
  { date := dateKey
    totalActualForDate := entriesForDate.foldl (fun s e => s + e.actualQuantity) 0
    entries := entriesForDate
    isOffDay := offDayInfo.isSome
    offDayName := jsStrOr (offDayInfo.map OffDay.description) "" }

/-- `Dashboard.tsx` lines 66-94: the per-day grouping of the selected
category and month. -/
def dailyGroups (data : List ProductionEntry) (offDays : List OffDay)
    (category month : String) : List DayGroup :=
  (sortedDates data offDays category month).map
    (mkDayGroup data offDays category month)

/-- `Dashboard.tsx` line 122: the CSV header cells. -/
def csvHeaders : List String :=
  ["Date", "Status", "Process", "Product", "Plan", "Actual", "Unit", "Batch No", "Manpower"]

/-- `Dashboard.tsx` line 127-129: the CSV row of one entry of a day group
(numbers render through `join` as their decimal text, `undefined` cells as
empty text). -/
def entryRow (g : DayGroup) (d : ProductionEntry) : List String :=
  [d.date,
   if g.isOffDay then "Holiday (" ++ g.offDayName ++ ")" else "Normal",
   d.process, d.productName,
   toString d.planQuantity, toString d.actualQuantity,
   jsStrOrS d.unit "KG",
   joinStrCell d.batchNo, joinIntCell d.manpower]

/-- `Dashboard.tsx` line 125: the placeholder row of a day group with no
entries. -/
def placeholderRow (g : DayGroup) : List String :=
  [g.date, jsStrOrS g.offDayName "Off Day", "-", "-", "0", "0", "-", "-", "0"]

/-- `Dashboard.tsx` lines 123-130: the data rows of the report
(`dailyGroups.flatMap`). -/
def csvRows (groups : List DayGroup) : List (List String) :=
  groups.flatMap (fun g =>
    if g.entries = [] then [placeholderRow g] else g.entries.map (entryRow g))

/-- `Dashboard.tsx` line 131: the exported CSV text — the header line then
one line per row, comma-joined (the `data:` URI prefix and `encodeURI` are
transport encoding around this text). -/
def csvText (groups : List DayGroup) : String :=
  String.intercalate "\n"
    (String.intercalate "," csvHeaders :: (csvRows groups).map (String.intercalate ","))

/-! ## Entry editor (`InputModal.tsx`, `handleSubmit`) -/

/-- Which tab the modal is on (`useState<'Plan' | 'Actual'>`). -/
inductive Tab
  | Plan
  | Actual
deriving DecidableEq

/-- The form fields of `InputModal` (`date`, `category`, `process`,
`productName`, `quantity`, `unit`, `manpower`, `batchNo`); the numeric
fields carry the value of `parseInt(x || '0')`. -/
structure InputForm where
  date : String
  category : String
  process : String
  productName : String
  quantity : Int
  unit : String
  manpower : Int
  batchNo : String
deriving DecidableEq

/-- `InputModal.tsx` lines 35-38: the off-day whose normalized date matches
the normalized input date, if any. -/
def currentOffDay (offDays : List OffDay) (date : String) : Option OffDay :=
  offDays.find? (fun od => normalizeInputDate od.date = normalizeInputDate date)

/-- Rendering of one diff item: `` `Field (old → new)` ``. -/
def renderChange (field old new : String) : String :=
  field ++ " (" ++ old ++ " → " ++ new ++ ")"

/-- `InputModal.tsx` lines 96-113: the `changes` list pushed while diffing
the edited entry against the form, in source order. -/
def editChanges (e : ProductionEntry) (f : InputForm) (tab : Tab) : List String :=
  (if e.date ≠ normalizeInputDate f.date then
    [renderChange "Date" e.date (normalizeInputDate f.date)] else [])
  ++ (if e.productName ≠ f.productName then
    [renderChange "Product" e.productName f.productName] else [])
  ++ (if e.category ≠ f.category then
    [renderChange "Category" e.category f.category] else [])
  ++ (if e.process ≠ f.process then
    [renderChange "Process" e.process f.process] else [])
  ++ (if e.unit ≠ f.unit then
    [renderChange "Unit" e.unit f.unit] else [])
  ++ (match tab with
      | Tab.Plan =>
          if e.planQuantity ≠ f.quantity then
            [renderChange "Plan Qty" (toString e.planQuantity) (toString f.quantity)]
          else []
      | Tab.Actual =>
          if e.actualQuantity ≠ f.quantity then
            [renderChange "Actual Qty" (toString e.actualQuantity) (toString f.quantity)]
          else [])
  ++ (if jsIntOr e.manpower 0 ≠ f.manpower then
    [renderChange "Manpower" (toString (jsIntOr e.manpower 0)) (toString f.manpower)] else [])
  ++ (if jsStrOr e.batchNo "" ≠ f.batchNo then
    [renderChange "Batch" (jsStrOr e.batchNo "None") (jsStrOrS f.batchNo "None")] else [])

/-- `InputModal.tsx` lines 132-134: the audit detail line of an edit. -/
def editLogDetails (e : ProductionEntry) (f : InputForm) (tab : Tab) : String :=
  if editChanges e f tab ≠ [] then
    "Edited " ++ f.productName ++ " (" ++ e.process ++ ") on " ++ e.date ++ ": "
      ++ String.intercalate ", " (editChanges e f tab)
  else
    "Updated record for " ++ f.productName ++ " (" ++ e.process ++ ") on " ++ e.date
      ++ " (No values changed)"

/-- `InputModal.tsx` lines 115-128: the map applied to every stored record
when saving an edit of the entry with id `eid`. -/
def applyEdit (f : InputForm) (tab : Tab) (eid userId now : String)
    (p : ProductionEntry) : ProductionEntry :=
  if p.id = eid then
    { p with
      date := normalizeInputDate f.date
      category := f.category
      process := f.process
      productName := f.productName
      unit := f.unit
      planQuantity := match tab with | Tab.Plan => f.quantity | Tab.Actual => p.planQuantity
      actualQuantity := match tab with | Tab.Actual => f.quantity | Tab.Plan => p.actualQuantity
      batchNo := some f.batchNo
      manpower := some f.manpower
      lastUpdatedBy := userId
      updatedAt := now }
  else p

/-- `InputModal.tsx` lines 161-170: the map applied to every stored record
when recording an actual against the selected plan id. -/
def recordActualUpdate (f : InputForm) (planId userId now : String)
    (p : ProductionEntry) : ProductionEntry :=
  if p.id = planId then
    { p with
      actualQuantity := f.quantity
      batchNo := some f.batchNo
      manpower := some f.manpower
      lastUpdatedBy := userId
      updatedAt := now }
  else p

/-- How `handleSubmit` ends: blocked by the off-day guard (notification and
early return, `InputModal.tsx` lines 84-90), a thrown error caught at line
187, or normal completion. -/
inductive SubmitOutcome
  | blockedOffDay (description : String)
  | error (message : String)
  | ok
deriving DecidableEq

/-- Modelled from the spec for the store calls only (`saveProductionData`
replaces the collection, `addLog` appends one line); everything else is
`InputModal.tsx` lines 78-194 verbatim: the off-day guard for non-edit
submissions, the edit branch with its diff log, the plan-creation branch
(`newId` stands for `Date.now().toString()`, `now` for `getDbTimestamp()`),
and the record-actual branch that throws only when `selectedPlanId` is
empty. -/
def handleSubmit (editEntry : Option ProductionEntry) (tab : Tab)
    (f : InputForm) (selectedPlanId : String) (offDays : List OffDay)
    (userId userName now newId : String) (st : StoreState) :
    SubmitOutcome × StoreState :=
  match editEntry with
  | some e =>
      (SubmitOutcome.ok,
        { data := st.data.map (applyEdit f tab e.id userId now)
          logs := st.logs ++
            [{ userId := userId, userName := userName, action := "EDIT_RECORD"
               details := editLogDetails e f tab }] })
  | none =>
      match currentOffDay offDays f.date with
      | some od => (SubmitOutcome.blockedOffDay od.description, st)
      | none =>
          match tab with
          | Tab.Plan =>
              (SubmitOutcome.ok,
                { data := st.data ++
                    [{ id := newId, date := normalizeInputDate f.date
                       category := f.category, process := f.process
                       productName := f.productName, planQuantity := f.quantity
                       actualQuantity := 0, unit := f.unit
                       batchNo := none, manpower := none
                       lastUpdatedBy := userId, updatedAt := now }]
                  logs := st.logs ++
                    [{ userId := userId, userName := userName, action := "CREATE_PLAN"
                       details := "Planned " ++ toString f.quantity ++ " " ++ f.unit
                         ++ " for " ++ f.productName ++ " ("
                         ++ normalizeInputDate f.date ++ ")" }] })
          | Tab.Actual =>
              if selectedPlanId = "" then
                (SubmitOutcome.error "Please select a plan", st)
              else
                (SubmitOutcome.ok,
                  { data := st.data.map (recordActualUpdate f selectedPlanId userId now)
                    logs := st.logs ++
                      [{ userId := userId, userName := userName
                         action := "RECORD_ACTUAL"
                         details := "Recorded actual output of " ++ toString f.quantity
                           ++ " "
                           ++ jsStrOr ((st.data.find? (fun p => p.id = selectedPlanId)).map ProductionEntry.unit) "KG"
                           ++ " for "
                           ++ jsStrOr ((st.data.find? (fun p => p.id = selectedPlanId)).map ProductionEntry.productName) "product" }] })

/-! ## User management (`UserManagement.tsx`) -/

/-- `UserManagement.tsx` line 190: the delete button of row `u` is disabled
when `u` is an admin and the list holds at most one admin. -/
def deleteDisabled (users : List User) (u : User) : Bool :=
  u.role = "admin" ∧ (users.filter (fun x => x.role = "admin")).length ≤ 1

/-- `UserManagement.tsx` line 64: the list written by `handleDelete` —
every user whose id differs from the target id. -/
def handleDeleteUsers (users : List User) (id : String) : List User :=
  users.filter (fun u => u.id ≠ id)

/-- The delete-user operation as reachable through the page: `handleDelete`
(lines 61-77) guarded by the button's `disabled` condition (line 190) — a
disabled row leaves the list unchanged. -/
def deleteUserGuarded (users : List User) (u : User) : List User :=
  if deleteDisabled users u then users else handleDeleteUsers users u.id

/-! ## `InputPlan` (second component of `UserManagement.tsx`) -/

/-- The form fields of `InputPlan`; `quantity` carries the parsed value of
its numeric input (empty input, falsy in the required-fields check, is
modeled as `0`). -/
structure PlanForm where
  date : String
  category : String
  process : String
  productName : String
  quantity : Int
  unit : String
deriving DecidableEq

/-- How `InputPlan.handleSubmit` ends: the error message set by a rejected
submission, or success. -/
inductive PlanMsg
  | errorMsg (text : String)
  | successMsg (text : String)
deriving DecidableEq

/-- `UserManagement.tsx` line 227 (`InputPlan`): the off-day matching the
form date by exact string equality (`od.date === formData.date`). -/
def inputPlanOffDay (offDays : List OffDay) (date : String) : Option OffDay :=
  offDays.find? (fun od => od.date = date)

/-- `UserManagement.tsx` lines 237-284 (`InputPlan.handleSubmit`): reject
when the date is an off-day, reject when a required field is missing,
otherwise append the new plan entry and one `CREATE_PLAN` log line (store
calls modelled from the spec as for `handleSubmit`). -/
def inputPlanSubmit (f : PlanForm) (offDays : List OffDay)
    (userId userName now newId : String) (st : StoreState) :
    PlanMsg × StoreState :=
  match inputPlanOffDay offDays f.date with
  | some od =>
      (PlanMsg.errorMsg ("Selected date is an Off Day: " ++ od.description ++ "."), st)
  | none =>
      if f.productName = "" ∨ f.quantity = 0 then
        (PlanMsg.errorMsg "Please fill all required fields.", st)
      else
        (PlanMsg.successMsg "Plan entry added successfully.",
          { data := st.data ++
              [{ id := newId, date := f.date, category := f.category
                 process := f.process, productName := f.productName
                 planQuantity := f.quantity, actualQuantity := 0
                 unit := f.unit, batchNo := none, manpower := none
                 lastUpdatedBy := userId, updatedAt := now }]
            logs := st.logs ++
              [{ userId := userId, userName := userName, action := "CREATE_PLAN"
                 details := "Planned " ++ toString f.quantity ++ " " ++ f.unit
                   ++ " for " ++ f.productName ++ " on " ++ f.date }] })

/-! ## Auxiliary definitions for the statements -/

/-- The eight fields `handleSubmit` diffs when editing, in source order:
name, rendered old value, rendered new value, and whether the source's
comparison finds them different.  (The `Batch` row compares `old || ''`
against the new value but renders with the `'None'` fallback, exactly as
the source does.) -/
def editFieldTable (e : ProductionEntry) (f : InputForm) (tab : Tab) :
    List (String × String × String × Bool) :=
  [("Date", e.date, normalizeInputDate f.date, decide (e.date ≠ normalizeInputDate f.date)),
   ("Product", e.productName, f.productName, decide (e.productName ≠ f.productName)),
   ("Category", e.category, f.category, decide (e.category ≠ f.category)),
   ("Process", e.process, f.process, decide (e.process ≠ f.process)),
   ("Unit", e.unit, f.unit, decide (e.unit ≠ f.unit)),
   (match tab with
    | Tab.Plan =>
        ("Plan Qty", toString e.planQuantity, toString f.quantity,
          decide (e.planQuantity ≠ f.quantity))
    | Tab.Actual =>
        ("Actual Qty", toString e.actualQuantity, toString f.quantity,
          decide (e.actualQuantity ≠ f.quantity))),
   ("Manpower", toString (jsIntOr e.manpower 0), toString f.manpower,
     decide (jsIntOr e.manpower 0 ≠ f.manpower)),
   ("Batch", jsStrOr e.batchNo "None", jsStrOrS f.batchNo "None",
     decide (jsStrOr e.batchNo "" ≠ f.batchNo))]

/-- Descending string order is total (for sortedness of the date keys). -/
instance : IsTotal String (fun a b => b ≤ a) := ⟨fun a b => le_total b a⟩

/-- Descending string order is transitive. -/
instance : IsTrans String (fun a b => b ≤ a) := ⟨fun _ _ _ h1 h2 => le_trans h2 h1⟩

/-- Concrete sample record used by the witnesses. -/
def sampleEntry : ProductionEntry :=
  { id := "1", date := "2024-01-10", category := "A", process := "P1"
    productName := "Gel", planQuantity := 100, actualQuantity := 80
    unit := "KG", batchNo := none, manpower := none
    lastUpdatedBy := "u0", updatedAt := "t0" }

/-- Concrete sample form used by the witnesses. -/
def sampleForm : InputForm :=
  { date := "2024-01-10", category := "A", process := "P1", productName := "Gel"
    quantity := 80, unit := "KG", manpower := 2, batchNo := "B1" }

/-- Concrete sample off-day used by the witnesses. -/
def sampleOffDay : OffDay := { date := "2024-01-11", description := "Holiday" }

/-- Concrete sample plan form used by the witnesses. -/
def samplePlanForm : PlanForm :=
  { date := "2024-01-11", category := "A", process := "P1"
    productName := "Gel", quantity := 50, unit := "KG" }

/-- Concrete sample users used by the witnesses. -/
def sampleAdmin1 : User :=
  { id := "1", name := "A1", username := "a1", email := "a1@x", role := "admin", password := "p" }

/-- Second sample admin. -/
def sampleAdmin2 : User :=
  { id := "2", name := "A2", username := "a2", email := "a2@x", role := "admin", password := "p" }

/-- Sample non-admin user. -/
def sampleOperator : User :=
  { id := "3", name := "O1", username := "o1", email := "o1@x", role := "operator", password := "p" }

/-! ## Helper lemmas -/

/-- An optional singleton is empty exactly when its condition fails. -/
theorem ite_singleton_eq_nil {α : Type} (c : Prop) [Decidable c] (x : α) :
    ((if c then [x] else []) = ([] : List α)) ↔ ¬c := by
  by_cases h : c <;> simp [h]

/-- Mapping over a filtered cons, one step at a time. -/
theorem filter_map_cons {α β : Type} (p : α → Bool) (g : α → β) (a : α) (l : List α) :
    ((a :: l).filter p).map g = (if p a then [g a] else []) ++ (l.filter p).map g := by
  by_cases h : p a <;> simp [h]

/-- Folding addition of a projection equals the initial value plus the sum. -/
theorem foldl_add_proj {α : Type} (g : α → Int) (l : List α) (a : Int) :
    l.foldl (fun s x => s + g x) a = a + (l.map g).sum := by
  induction l generalizing a with
  | nil => simp
  | cons x t ih => simp [ih, add_assoc]

/-- A list with two distinct members has length at least two. -/
theorem two_le_length_of_two_mem {α : Type} {a b : α} {l : List α}
    (ha : a ∈ l) (hb : b ∈ l) (hab : a ≠ b) : 2 ≤ l.length := by
  match l with
  | [] => cases ha
  | [x] =>
      simp only [List.mem_singleton] at ha hb
      exact absurd (ha.trans hb.symm) hab
  | x :: y :: t =>
      simp only [List.length_cons]
      omega

/-- `jsStrOr` with an empty default returns the stored string unchanged. -/
theorem jsStrOr_some_empty (s : String) : jsStrOr (some s) "" = s := by
  by_cases h : s = "" <;> simp [jsStrOr, h]

/-! ## Claim theorems -/

/-- C2: creating a plan entry (a non-edit submission of the Plan tab in
`InputModal`, and likewise a submission of the standalone `InputPlan` form)
on a date flagged as an off-day fails with the off-day rejection — the
source's `ValidationError` — and performs no store mutation: the store
state, data and logs alike, is returned unchanged, so no entry is
appended. -/
theorem C2_offday_blocks_plan_creation (f : InputForm) (g : PlanForm)
    (planId : String) (offDays offDays2 : List OffDay)
    (userId userName now newId userId2 userName2 now2 newId2 : String)
    (st st2 : StoreState) (od od2 : OffDay)
    (h1 : currentOffDay offDays f.date = some od)
    (h2 : inputPlanOffDay offDays2 g.date = some od2) :
    handleSubmit none Tab.Plan f planId offDays userId userName now newId st
      = (SubmitOutcome.blockedOffDay od.description, st) ∧
    inputPlanSubmit g offDays2 userId2 userName2 now2 newId2 st2
      = (PlanMsg.errorMsg ("Selected date is an Off Day: " ++ od2.description ++ "."),
         st2) := by
  constructor
  · simp [handleSubmit, h1]
  · simp [inputPlanSubmit, h2]

/-- C2 witness. -/
theorem C2_offday_blocks_plan_creation_witness :
    currentOffDay [sampleOffDay] "2024-01-11" = some sampleOffDay ∧
    inputPlanOffDay [sampleOffDay] "2024-01-11" = some sampleOffDay ∧
    (handleSubmit none Tab.Plan { sampleForm with date := "2024-01-11" } ""
        [sampleOffDay] "u1" "U" "t1" "9" { data := [sampleEntry], logs := [] }
      = (SubmitOutcome.blockedOffDay sampleOffDay.description,
         { data := [sampleEntry], logs := [] }) ∧
     inputPlanSubmit samplePlanForm [sampleOffDay] "u1" "U" "t1" "9"
        { data := [sampleEntry], logs := [] }
      = (PlanMsg.errorMsg ("Selected date is an Off Day: "
            ++ sampleOffDay.description ++ "."),
         { data := [sampleEntry], logs := [] })) :=
  ⟨by decide, by decide,
   C2_offday_blocks_plan_creation { sampleForm with date := "2024-01-11" }
     samplePlanForm "" [sampleOffDay] [sampleOffDay] "u1" "U" "t1" "9" "u1" "U" "t1" "9"
     { data := [sampleEntry], logs := [] } { data := [sampleEntry], logs := [] }
     sampleOffDay sampleOffDay (by decide) (by decide)⟩

/-- C10: for a new (non-edit) submission, the off-day guard in
`handleSubmit` fires before any store access regardless of the open tab:
with a matching off-day, recording an actual is blocked with the same
rejection and the same unchanged store as creating a plan. -/
theorem C10_offday_blocks_actual_recording (f : InputForm) (planId : String)
    (offDays : List OffDay) (userId userName now newId : String)
    (st : StoreState) (od : OffDay)
    (h : currentOffDay offDays f.date = some od) :
    ∀ tab, handleSubmit none tab f planId offDays userId userName now newId st
      = (SubmitOutcome.blockedOffDay od.description, st) := by
  intro tab
  cases tab
  · simp [handleSubmit, h]
  · simp [handleSubmit, h]

/-- C10 witness. -/
theorem C10_offday_blocks_actual_recording_witness :
    currentOffDay [sampleOffDay] "2024-01-11" = some sampleOffDay ∧
    (∀ tab, handleSubmit none tab { sampleForm with date := "2024-01-11" } "1"
        [sampleOffDay] "u1" "U" "t1" "9" { data := [sampleEntry], logs := [] }
      = (SubmitOutcome.blockedOffDay sampleOffDay.description,
         { data := [sampleEntry], logs := [] })) :=
  ⟨by decide,
   C10_offday_blocks_actual_recording { sampleForm with date := "2024-01-11" } "1"
     [sampleOffDay] "u1" "U" "t1" "9" { data := [sampleEntry], logs := [] }
     sampleOffDay (by decide)⟩

/-- C6: every edit submission appends exactly one audit log line; its detail
text is the generic "No values changed" message exactly when no compared
field differs (date, product, category, process, unit, the active tab's
quantity, manpower, batch), and otherwise enumerates exactly the changed
fields of that list, each rendered as `Field (old → new)` — formalized as
the `changes` list being precisely the filter of the eight-row field table
by its changed flag. -/
theorem C6_edit_audit_diff (e : ProductionEntry) (f : InputForm) (tab : Tab)
    (planId : String) (offDays : List OffDay) (userId userName now newId : String)
    (st : StoreState) :
    (handleSubmit (some e) tab f planId offDays userId userName now newId st).2.logs
      = st.logs ++ [{ userId := userId, userName := userName, action := "EDIT_RECORD"
                      details := editLogDetails e f tab }] ∧
    (editChanges e f tab = [] ↔
      (e.date = normalizeInputDate f.date ∧ e.productName = f.productName ∧
       e.category = f.category ∧ e.process = f.process ∧ e.unit = f.unit ∧
       (match tab with
        | Tab.Plan => e.planQuantity = f.quantity
        | Tab.Actual => e.actualQuantity = f.quantity) ∧
       jsIntOr e.manpower 0 = f.manpower ∧ jsStrOr e.batchNo "" = f.batchNo)) ∧
    (editChanges e f tab = [] →
      editLogDetails e f tab =
        "Updated record for " ++ f.productName ++ " (" ++ e.process ++ ") on "
          ++ e.date ++ " (No values changed)") ∧
    (editChanges e f tab ≠ [] →
      editLogDetails e f tab =
        "Edited " ++ f.productName ++ " (" ++ e.process ++ ") on " ++ e.date ++ ": "
          ++ String.intercalate ", " (editChanges e f tab)) ∧
    editChanges e f tab
      = ((editFieldTable e f tab).filter (fun t => t.2.2.2)).map
          (fun t => renderChange t.1 t.2.1 t.2.2.1) := by
  refine ⟨by simp [handleSubmit], ?_, ?_, ?_, ?_⟩
  · cases tab
    · simp only [editChanges, List.append_eq_nil]
      simp only [ite_singleton_eq_nil, not_ne_iff]
      tauto
    · simp only [editChanges, List.append_eq_nil]
      simp only [ite_singleton_eq_nil, not_ne_iff]
      tauto
  · intro h; simp [editLogDetails, h]
  · intro h; simp [editLogDetails, h]
  · cases tab
    · simp only [editFieldTable, filter_map_cons, List.filter_nil, List.map_nil,
        List.append_nil, decide_eq_true_eq, editChanges, List.append_assoc]
    · simp only [editFieldTable, filter_map_cons, List.filter_nil, List.map_nil,
        List.append_nil, decide_eq_true_eq, editChanges, List.append_assoc]

/-- C6 witness: a no-op edit yields the generic line, and the one-field
change example is reachable from the theorem. -/
theorem C6_edit_audit_diff_witness :
    (handleSubmit (some sampleEntry) Tab.Actual
        { sampleForm with manpower := 0, batchNo := "" } "" [] "u1" "U" "t1" "9"
        { data := [sampleEntry], logs := [] }).2.logs
      = [] ++ [{ userId := "u1", userName := "U", action := "EDIT_RECORD"
                 details := editLogDetails sampleEntry
                   { sampleForm with manpower := 0, batchNo := "" } Tab.Actual }] ∧
    (editChanges sampleEntry { sampleForm with manpower := 0, batchNo := "" }
        Tab.Actual = [] ↔
      (sampleEntry.date = normalizeInputDate
          ({ sampleForm with manpower := 0, batchNo := "" } : InputForm).date ∧
       sampleEntry.productName = sampleForm.productName ∧
       sampleEntry.category = sampleForm.category ∧
       sampleEntry.process = sampleForm.process ∧
       sampleEntry.unit = sampleForm.unit ∧
       sampleEntry.actualQuantity = sampleForm.quantity ∧
       jsIntOr sampleEntry.manpower 0 = 0 ∧
       jsStrOr sampleEntry.batchNo "" = "")) ∧
    (editChanges sampleEntry { sampleForm with manpower := 0, batchNo := "" }
        Tab.Actual = [] →
      editLogDetails sampleEntry { sampleForm with manpower := 0, batchNo := "" }
          Tab.Actual =
        "Updated record for " ++ sampleForm.productName ++ " ("
          ++ sampleEntry.process ++ ") on " ++ sampleEntry.date
          ++ " (No values changed)") ∧
    (editChanges sampleEntry { sampleForm with manpower := 0, batchNo := "" }
        Tab.Actual ≠ [] →
      editLogDetails sampleEntry { sampleForm with manpower := 0, batchNo := "" }
          Tab.Actual =
        "Edited " ++ sampleForm.productName ++ " (" ++ sampleEntry.process
          ++ ") on " ++ sampleEntry.date ++ ": "
          ++ String.intercalate ", "
              (editChanges sampleEntry
                { sampleForm with manpower := 0, batchNo := "" } Tab.Actual)) ∧
    editChanges sampleEntry { sampleForm with manpower := 0, batchNo := "" }
        Tab.Actual
      = ((editFieldTable sampleEntry
            { sampleForm with manpower := 0, batchNo := "" } Tab.Actual).filter
            (fun t => t.2.2.2)).map (fun t => renderChange t.1 t.2.1 t.2.2.1) :=
  C6_edit_audit_diff sampleEntry { sampleForm with manpower := 0, batchNo := "" }
    Tab.Actual "" [] "u1" "U" "t1" "9" { data := [sampleEntry], logs := [] }

/-- C3: the monthly efficiency figure equals `actual/plan*100` whenever the
plan sum is positive, is exactly `0` whenever the plan sum is `0` (no
division happens in that case), and for nonnegative sums it always lies in
`[0, ∞)`. -/
theorem C3_efficiency_total (data : List ProductionEntry) (category month : String)
    (hp : 0 ≤ selectedMonthPlan data category month)
    (ha : 0 ≤ selectedMonthActual data category month) :
    (0 < selectedMonthPlan data category month →
      selectedMonthEfficiency data category month
        = (selectedMonthActual data category month : ℚ)
            / (selectedMonthPlan data category month : ℚ) * 100) ∧
    (selectedMonthPlan data category month = 0 →
      selectedMonthEfficiency data category month = 0) ∧
    0 ≤ selectedMonthEfficiency data category month := by
  refine ⟨?_, ?_, ?_⟩
  · intro h
    simp [selectedMonthEfficiency, efficiency, h]
  · intro h
    simp [selectedMonthEfficiency, efficiency, h]
  · unfold selectedMonthEfficiency efficiency
    split
    · next h =>
        have h1 : (0 : ℚ) ≤ (selectedMonthActual data category month : ℚ) :=
          Int.cast_nonneg.mpr ha
        have h2 : (0 : ℚ) ≤ (selectedMonthPlan data category month : ℚ) :=
          Int.cast_nonneg.mpr hp
        have := div_nonneg h1 h2
        linarith
    · exact le_refl 0

/-- C3 witness. -/
theorem C3_efficiency_total_witness :
    0 ≤ selectedMonthPlan [sampleEntry] "A" "2024-01" ∧
    0 ≤ selectedMonthActual [sampleEntry] "A" "2024-01" ∧
    ((0 < selectedMonthPlan [sampleEntry] "A" "2024-01" →
      selectedMonthEfficiency [sampleEntry] "A" "2024-01"
        = (selectedMonthActual [sampleEntry] "A" "2024-01" : ℚ)
            / (selectedMonthPlan [sampleEntry] "A" "2024-01" : ℚ) * 100) ∧
     (selectedMonthPlan [sampleEntry] "A" "2024-01" = 0 →
      selectedMonthEfficiency [sampleEntry] "A" "2024-01" = 0) ∧
     0 ≤ selectedMonthEfficiency [sampleEntry] "A" "2024-01") :=
  ⟨by decide, by decide,
   C3_efficiency_total [sampleEntry] "A" "2024-01" (by decide) (by decide)⟩

/-- C1 counterexample: with a non-empty `selectedPlanId` that resolves to no
stored entry (`"missing"` against a store holding only id `"1"`), the
record-actual submission does NOT fail — it completes with `ok` (and
rewrites the collection unchanged) — refuting the claim that an unresolved
planId fails with `NotFoundError`. -/
theorem C1_counterexample :
    (handleSubmit none Tab.Actual sampleForm "missing" [] "u1" "U" "t1" "9"
        { data := [sampleEntry], logs := [] }).1 = SubmitOutcome.ok ∧
    (handleSubmit none Tab.Actual sampleForm "missing" [] "u1" "U" "t1" "9"
        { data := [sampleEntry], logs := [] }).2.data = [sampleEntry] ∧
    ¬ (∃ p ∈ ([sampleEntry] : List ProductionEntry), p.id = "missing") := by
  refine ⟨by decide, by decide, by decide⟩

/-- C1 (amended): the record-actual branch fails (with the thrown "Please
select a plan" error) only when the selected plan id is the empty string; a
non-empty id that resolves to no stored entry completes without error,
leaving every record unchanged; and when the id resolves, the update map
touches only the matched record, on which it mutates exactly
actualQuantity, batchNo, manpower, lastUpdatedBy and updatedAt, preserving
every other field. -/
theorem C1_record_actual_behavior (f : InputForm) (planId : String)
    (offDays : List OffDay) (userId userName now newId : String) (st : StoreState)
    (hod : currentOffDay offDays f.date = none) :
    (planId = "" →
      handleSubmit none Tab.Actual f planId offDays userId userName now newId st
        = (SubmitOutcome.error "Please select a plan", st)) ∧
    (planId ≠ "" →
      (handleSubmit none Tab.Actual f planId offDays userId userName now newId st).1
        = SubmitOutcome.ok ∧
      (handleSubmit none Tab.Actual f planId offDays userId userName now newId st).2.data
        = st.data.map (recordActualUpdate f planId userId now) ∧
      (∃ le, (handleSubmit none Tab.Actual f planId offDays userId userName now newId
          st).2.logs = st.logs ++ [le]) ∧
      ((∀ p ∈ st.data, p.id ≠ planId) →
        (handleSubmit none Tab.Actual f planId offDays userId userName now newId
            st).2.data = st.data)) ∧
    (∀ p : ProductionEntry, p.id ≠ planId →
      recordActualUpdate f planId userId now p = p) ∧
    (∀ p : ProductionEntry, p.id = planId →
      (recordActualUpdate f planId userId now p).id = p.id ∧
      (recordActualUpdate f planId userId now p).date = p.date ∧
      (recordActualUpdate f planId userId now p).category = p.category ∧
      (recordActualUpdate f planId userId now p).process = p.process ∧
      (recordActualUpdate f planId userId now p).productName = p.productName ∧
      (recordActualUpdate f planId userId now p).planQuantity = p.planQuantity ∧
      (recordActualUpdate f planId userId now p).unit = p.unit ∧
      (recordActualUpdate f planId userId now p).actualQuantity = f.quantity ∧
      (recordActualUpdate f planId userId now p).batchNo = some f.batchNo ∧
      (recordActualUpdate f planId userId now p).manpower = some f.manpower ∧
      (recordActualUpdate f planId userId now p).lastUpdatedBy = userId ∧
      (recordActualUpdate f planId userId now p).updatedAt = now) := by
  refine ⟨?_, ?_, ?_, ?_⟩
  · intro h
    simp [handleSubmit, hod, h]
  · intro h
    refine ⟨by simp [handleSubmit, hod, h], by simp [handleSubmit, hod, h],
      by simp [handleSubmit, hod, h], ?_⟩
    intro hall
    simp only [handleSubmit, hod, h]
    calc st.data.map (recordActualUpdate f planId userId now)
        = st.data.map id :=
          List.map_congr_left (fun p hp => by
            simp [recordActualUpdate, hall p hp])
      _ = st.data := List.map_id st.data
  · intro p hp
    simp [recordActualUpdate, hp]
  · intro p hp
    simp [recordActualUpdate, hp]

/-- C1 witness: resolving id `"1"` mutates only the actual-recording fields
of the matched record; the empty id errors out. -/
theorem C1_record_actual_behavior_witness :
    currentOffDay [] sampleForm.date = none ∧
    (("" : String) = "" →
      handleSubmit none Tab.Actual sampleForm "" [] "u1" "U" "t1" "9"
          { data := [sampleEntry], logs := [] }
        = (SubmitOutcome.error "Please select a plan",
           { data := [sampleEntry], logs := [] })) ∧
    (∀ p : ProductionEntry, p.id = "" →
      (recordActualUpdate sampleForm "" "u1" "t1" p).planQuantity = p.planQuantity ∧
      (recordActualUpdate sampleForm "" "u1" "t1" p).actualQuantity
        = sampleForm.quantity) :=
  ⟨by decide,
   fun h => (C1_record_actual_behavior sampleForm "" [] "u1" "U" "t1" "9"
     { data := [sampleEntry], logs := [] } (by decide)).1 h,
   fun p hp =>
     ⟨((C1_record_actual_behavior sampleForm "" [] "u1" "U" "t1" "9"
         { data := [sampleEntry], logs := [] } (by decide)).2.2.2 p hp).2.2.2.2.2.1,
      ((C1_record_actual_behavior sampleForm "" [] "u1" "U" "t1" "9"
         { data := [sampleEntry], logs := [] } (by decide)).2.2.2 p hp).2.2.2.2.2.2.2.1⟩⟩

/-- C8: over user lists whose ids are distinct (the data model keys every
collection by unique id) and which contain at least one admin: the
delete-user operation — `handleDelete` behind the delete button's disabled
guard — rejects deleting an admin when the list holds at most one admin,
deletes an admin when another admin exists, and always leaves at least one
admin in the list. -/
theorem C8_last_admin_protected (users : List User)
    (hids : (users.map User.id).Nodup)
    (hadm : ∃ a ∈ users, a.role = "admin") :
    (∀ u ∈ users, u.role = "admin" →
      (users.filter (fun x => x.role = "admin")).length ≤ 1 →
      deleteUserGuarded users u = users) ∧
    (∀ u ∈ users, u.role = "admin" →
      (∃ a ∈ users, a.role = "admin" ∧ a.id ≠ u.id) →
      deleteUserGuarded users u = handleDeleteUsers users u.id ∧
      u ∉ deleteUserGuarded users u) ∧
    (∀ u ∈ users, ∃ a ∈ deleteUserGuarded users u, a.role = "admin") := by
  have hinj : ∀ x ∈ users, ∀ y ∈ users, x.id = y.id → x = y :=
    List.inj_on_of_nodup_map hids
  have hnd : users.Nodup := List.Nodup.of_map User.id hids
  refine ⟨?_, ?_, ?_⟩
  · intro u _ hrole hcount
    simp [deleteUserGuarded, deleteDisabled, hrole, hcount]
  · intro u hu hrole hex
    obtain ⟨a, ha, har, hane⟩ := hex
    have hau : a ≠ u := fun h => hane (by rw [h])
    have hmu : u ∈ users.filter (fun x => x.role = "admin") :=
      List.mem_filter.mpr ⟨hu, by simp [hrole]⟩
    have hma : a ∈ users.filter (fun x => x.role = "admin") :=
      List.mem_filter.mpr ⟨ha, by simp [har]⟩
    have h2 : 2 ≤ (users.filter (fun x => x.role = "admin")).length :=
      two_le_length_of_two_mem hma hmu hau
    have hdis : deleteDisabled users u = false := by
      simp only [deleteDisabled, decide_eq_false_iff_not, not_and]
      intro _
      omega
    refine ⟨by simp [deleteUserGuarded, hdis], ?_⟩
    simp [deleteUserGuarded, hdis, handleDeleteUsers]
  · intro u hu
    by_cases hd : deleteDisabled users u = true
    · simp only [deleteUserGuarded, hd, if_true]
      exact hadm
    · have hd' : deleteDisabled users u = false := by
        simpa using hd
      simp only [deleteUserGuarded, hd', Bool.false_eq_true, if_false]
      obtain ⟨a, ha, har⟩ := hadm
      by_cases hai : a.id = u.id
      · have hau : a = u := hinj a ha u hu hai
        subst hau
        have hcount : 2 ≤ (users.filter (fun x => x.role = "admin")).length := by
          by_contra hc
          push_neg at hc
          have : deleteDisabled users a = true := by
            simp only [deleteDisabled, decide_eq_true_eq]
            exact ⟨har, by omega⟩
          rw [this] at hd'
          cases hd'
        have hfa : a ∈ users.filter (fun x => x.role = "admin") :=
          List.mem_filter.mpr ⟨ha, by simp [har]⟩
        have hndf : (users.filter (fun x => x.role = "admin")).Nodup :=
          hnd.filter _
        have hb : ∃ b ∈ users.filter (fun x => x.role = "admin"), b ≠ a := by
          by_contra hball
          push_neg at hball
          have hlen : (users.filter (fun x => x.role = "admin")).count a
              = (users.filter (fun x => x.role = "admin")).length :=
            List.count_eq_length.mpr (fun b hbm => (hball b hbm).symm)
          have hle : (users.filter (fun x => x.role = "admin")).count a ≤ 1 :=
            List.nodup_iff_count_le_one.mp hndf a
          omega
        obtain ⟨b, hbf, hba⟩ := hb
        have hbu : b ∈ users := (List.mem_filter.mp hbf).1
        have hbr : b.role = "admin" := by
          simpa using (List.mem_filter.mp hbf).2
        have hbid : b.id ≠ a.id := fun h => hba (hinj b hbu a ha h)
        exact ⟨b, List.mem_filter.mpr ⟨hbu, by simp [handleDeleteUsers, hbid]⟩, hbr⟩
      · exact ⟨a, List.mem_filter.mpr ⟨ha, by simp [hai]⟩, har⟩

/-- C8 witness: with two admins and one operator, deleting one admin leaves
an admin behind. -/
theorem C8_last_admin_protected_witness :
    (([sampleAdmin1, sampleAdmin2, sampleOperator].map User.id).Nodup) ∧
    (∃ a ∈ [sampleAdmin1, sampleAdmin2, sampleOperator], a.role = "admin") ∧
    (∀ u ∈ [sampleAdmin1, sampleAdmin2, sampleOperator],
      ∃ a ∈ deleteUserGuarded [sampleAdmin1, sampleAdmin2, sampleOperator] u,
        a.role = "admin") :=
  ⟨by decide, by decide,
   (C8_last_admin_protected [sampleAdmin1, sampleAdmin2, sampleOperator]
     (by decide) (by decide)).2.2⟩

theorem addToBuckets_mem (processes : List String) (f g : String → Int)
    (name : String) (pl ac : Int) (h : name ∈ processes) :
    addToBuckets (processes.map (fun p => { process := p, Plan := f p, Actual := g p }))
        name pl ac
      = processes.map (fun p =>
          { process := p
            Plan := if p = name then f p + pl else f p
            Actual := if p = name then g p + ac else g p }) := by
  have hany : (processes.map (fun p =>
      ({ process := p, Plan := f p, Actual := g p } : ProcBucket))).any
      (fun b => b.process = name) = true := by
    rw [List.any_eq_true]
    exact ⟨_, List.mem_map_of_mem _ h, by simp⟩
  simp only [addToBuckets, hany, if_true, List.map_map]
  refine List.map_congr_left ?_
  intro p _
  by_cases hp : p = name
  · simp [Function.comp, hp]
  · simp [Function.comp, hp]

theorem addToBuckets_not_mem (processes : List String) (f g : String → Int)
    (name : String) (pl ac : Int) (h : name ∉ processes) :
    addToBuckets (processes.map (fun p => { process := p, Plan := f p, Actual := g p }))
        name pl ac
      = processes.map (fun p => { process := p, Plan := f p, Actual := g p }) := by
  have hany : (processes.map (fun p =>
      ({ process := p, Plan := f p, Actual := g p } : ProcBucket))).any
      (fun b => b.process = name) = false := by
    rw [List.any_eq_false]
    intro b hb
    obtain ⟨q, hq, rfl⟩ := List.mem_map.mp hb
    simp only [decide_eq_true_eq]
    intro hpn
    exact h (hpn ▸ hq)
  simp only [addToBuckets, hany, Bool.false_eq_true, if_false]

theorem chart_fold (processes : List String) (l : List ProductionEntry)
    (f g : String → Int) :
    l.foldl (fun bs d => addToBuckets bs (procNameOf d) d.planQuantity d.actualQuantity)
        (processes.map (fun p => { process := p, Plan := f p, Actual := g p }))
      = processes.map (fun p =>
          { process := p
            Plan := f p + planSumIn processes l p
            Actual := g p + actualSumIn processes l p }) := by
  induction l generalizing f g with
  | nil => simp [planSumIn, actualSumIn]
  | cons d t ih =>
      by_cases h : procNameOf d ∈ processes
      · rw [List.foldl_cons, addToBuckets_mem processes f g _ _ _ h,
          ih (fun p => if p = procNameOf d then f p + d.planQuantity else f p)
             (fun p => if p = procNameOf d then g p + d.actualQuantity else g p)]
        refine List.map_congr_left ?_
        intro p _
        by_cases hp : p = procNameOf d
        · subst hp
          simp [planSumIn, actualSumIn, List.filter_cons, h, add_assoc]
        · have hne : ¬ (procNameOf d = p ∧ procNameOf d ∈ processes) := by
            rintro ⟨h1, _⟩
            exact hp h1.symm
          simp [planSumIn, actualSumIn, List.filter_cons, hne, hp]
      · rw [List.foldl_cons, addToBuckets_not_mem processes f g _ _ _ h, ih f g]
        refine List.map_congr_left ?_
        intro p _
        have hne : ¬ (procNameOf d = p ∧ procNameOf d ∈ processes) := by
          rintro ⟨_, h2⟩
          exact h h2
        simp [planSumIn, actualSumIn, List.filter_cons, hne]

theorem planSumIn_eq (processes : List String) (l : List ProductionEntry)
    (p : String) (h : p ∈ processes) :
    planSumIn processes l p = planSumFor l p := by
  unfold planSumIn planSumFor
  congr 1
  apply congrArg
  apply List.filter_congr
  intro d _
  by_cases hd : procNameOf d = p
  · simp [hd, h]
  · simp [hd]

theorem actualSumIn_eq (processes : List String) (l : List ProductionEntry)
    (p : String) (h : p ∈ processes) :
    actualSumIn processes l p = actualSumFor l p := by
  unfold actualSumIn actualSumFor
  congr 1
  apply congrArg
  apply List.filter_congr
  intro d _
  by_cases hd : procNameOf d = p
  · simp [hd, h]
  · simp [hd]

theorem chartData_closed (processes : List String) (data : List ProductionEntry)
    (category month : String) :
    chartData processes data category month
      = processes.map (fun p =>
          { process := p
            Plan := planSumFor (monthEntries data category month) p
            Actual := actualSumFor (monthEntries data category month) p }) := by
  unfold chartData
  rw [show (processes.map (fun p => ({ process := p, Plan := 0, Actual := 0 } : ProcBucket)))
      = processes.map (fun p =>
          { process := p, Plan := (fun _ : String => (0 : Int)) p
            Actual := (fun _ : String => (0 : Int)) p }) from rfl,
    chart_fold]
  refine List.map_congr_left ?_
  intro p hp
  rw [planSumIn_eq processes _ p hp, actualSumIn_eq processes _ p hp]
  simp

/-- C4 counterexample: an entry whose (non-empty) process name `"Weird"` is
outside the known enumeration is a month entry, yet the breakdown carries
no `"Other"` bucket and no bucket accumulates its quantities — the entry is
dropped from the breakdown, refuting the claim that unknown process names
are accumulated into an `"Other"` bucket. -/
theorem C4_counterexample :
    chartData ["Mixing"] [{ sampleEntry with process := "Weird" }] "A" "2024-01"
      = [{ process := "Mixing", Plan := 0, Actual := 0 }] ∧
    ({ sampleEntry with process := "Weird" } : ProductionEntry)
      ∈ monthEntries [{ sampleEntry with process := "Weird" }] "A" "2024-01" ∧
    ({ sampleEntry with process := "Weird" } : ProductionEntry).planQuantity = 100 ∧
    (∀ b ∈ chartData ["Mixing"] [{ sampleEntry with process := "Weird" }] "A"
        "2024-01", b.process ≠ "Other" ∧ b.Plan = 0 ∧ b.Actual = 0) := by
  refine ⟨by decide, by decide, by decide, by decide⟩

/-- C4 (amended): for a duplicate-free process enumeration, the breakdown
lists each known process exactly once, in order, its bucket accumulating
exactly the month entries whose mapped process name equals it — hence
`Plan = Actual = 0` when no entry matches; an entry whose mapped process
name is not in the enumeration is dropped: adding under a key no bucket
carries leaves the buckets unchanged (only entries with an empty process
name are mapped to `"Other"`, and they land in a bucket only when
`"Other"` is itself among the known processes). -/
theorem C4_process_breakdown (processes : List String)
    (data : List ProductionEntry) (category month : String)
    (hnd : processes.Nodup) :
    chartData processes data category month
      = processes.map (fun p =>
          { process := p
            Plan := planSumFor (monthEntries data category month) p
            Actual := actualSumFor (monthEntries data category month) p }) ∧
    (chartData processes data category month).map ProcBucket.process = processes ∧
    (∀ p ∈ processes,
      ((chartData processes data category month).map ProcBucket.process).count p
        = 1) ∧
    (∀ p ∈ processes,
      (monthEntries data category month).filter (fun d => procNameOf d = p) = [] →
      { process := p, Plan := 0, Actual := 0 }
        ∈ chartData processes data category month) ∧
    (∀ (name : String) (pl ac : Int) (bs : List ProcBucket),
      (∀ b ∈ bs, b.process ≠ name) → addToBuckets bs name pl ac = bs) := by
  have hmapproc : (chartData processes data category month).map ProcBucket.process
      = processes := by
    rw [chartData_closed, List.map_map]
    exact (List.map_congr_left (fun p _ => rfl)).trans (List.map_id processes)
  refine ⟨chartData_closed processes data category month, hmapproc, ?_, ?_, ?_⟩
  · intro p hp
    rw [hmapproc]
    have h1 : processes.count p ≤ 1 := List.nodup_iff_count_le_one.mp hnd p
    have h2 : 0 < processes.count p := List.count_pos_iff.mpr hp
    omega
  · intro p hp hfil
    rw [chartData_closed]
    have hplan : planSumFor (monthEntries data category month) p = 0 := by
      unfold planSumFor
      rw [hfil]
      rfl
    have hact : actualSumFor (monthEntries data category month) p = 0 := by
      unfold actualSumFor
      rw [hfil]
      rfl
    exact List.mem_map.mpr ⟨p, hp, by rw [hplan, hact]⟩
  · intro name pl ac bs hb
    unfold addToBuckets
    rw [if_neg]
    intro hany
    obtain ⟨b, hbm, hbe⟩ := List.any_eq_true.mp hany
    exact hb b hbm (by simpa using hbe)

/-- C4 witness. -/
theorem C4_process_breakdown_witness :
    (["P1", "Other"] : List String).Nodup ∧
    chartData ["P1", "Other"] [sampleEntry] "A" "2024-01"
      = (["P1", "Other"] : List String).map (fun p =>
          { process := p
            Plan := planSumFor (monthEntries [sampleEntry] "A" "2024-01") p
            Actual := actualSumFor (monthEntries [sampleEntry] "A" "2024-01") p }) ∧
    (chartData ["P1", "Other"] [sampleEntry] "A" "2024-01").map ProcBucket.process
      = ["P1", "Other"] :=
  ⟨by decide,
   (C4_process_breakdown ["P1", "Other"] [sampleEntry] "A" "2024-01" (by decide)).1,
   (C4_process_breakdown ["P1", "Other"] [sampleEntry] "A" "2024-01"
     (by decide)).2.1⟩

theorem mem_monthFilteredEntries (data : List ProductionEntry)
    (category month : String) (e : ProductionEntry) :
    e ∈ monthFilteredEntries data category month ↔
      (e ∈ relevantEntries data category ∧ e.date ≠ "" ∧
       jsStartsWith (jsTrim e.date) month = true) := by
  unfold monthFilteredEntries filteredData
  rw [List.mem_filter, (List.perm_insertionSort _ _).mem_iff]
  simp only [decide_eq_true_eq]

theorem mem_monthFilteredOffDays (offDays : List OffDay) (month : String)
    (od : OffDay) :
    od ∈ monthFilteredOffDays offDays month ↔
      (od ∈ offDays ∧ od.date ≠ "" ∧ jsStartsWith (jsTrim od.date) month = true) := by
  unfold monthFilteredOffDays
  rw [List.mem_filter]
  simp only [decide_eq_true_eq]

theorem dailyGroups_map_date (data : List ProductionEntry) (offDays : List OffDay)
    (category month : String) :
    (dailyGroups data offDays category month).map DayGroup.date
      = sortedDates data offDays category month := by
  unfold dailyGroups
  rw [List.map_map]
  exact (List.map_congr_left (fun k _ => rfl)).trans (List.map_id _)

theorem mem_sortedDates (data : List ProductionEntry) (offDays : List OffDay)
    (category month : String) (s : String) :
    s ∈ sortedDates data offDays category month ↔
      ((∃ e ∈ monthFilteredEntries data category month,
          normalizeDashDate e.date = s) ∨
       (∃ od ∈ monthFilteredOffDays offDays month,
          normalizeDashDate od.date = s)) := by
  unfold sortedDates
  rw [(List.perm_insertionSort _ _).mem_iff, List.mem_dedup, List.mem_append]
  simp only [List.mem_map]

theorem mkDayGroup_date (data : List ProductionEntry) (offDays : List OffDay)
    (category month k : String) :
    (mkDayGroup data offDays category month k).date = k := rfl

theorem mkDayGroup_entries (data : List ProductionEntry) (offDays : List OffDay)
    (category month k : String) :
    (mkDayGroup data offDays category month k).entries
      = (monthFilteredEntries data category month).filter
          (fun d => normalizeDashDate d.date = k) := rfl

theorem mkDayGroup_total (data : List ProductionEntry) (offDays : List OffDay)
    (category month k : String) :
    (mkDayGroup data offDays category month k).totalActualForDate
      = ((monthFilteredEntries data category month).filter
          (fun d => normalizeDashDate d.date = k)).foldl
          (fun s e => s + e.actualQuantity) 0 := rfl

theorem mkDayGroup_isOffDay (data : List ProductionEntry) (offDays : List OffDay)
    (category month k : String) :
    (mkDayGroup data offDays category month k).isOffDay
      = ((monthFilteredOffDays offDays month).find?
          (fun od => normalizeDashDate od.date = k)).isSome := rfl

theorem mkDayGroup_offDayName (data : List ProductionEntry) (offDays : List OffDay)
    (category month k : String) :
    (mkDayGroup data offDays category month k).offDayName
      = jsStrOr (((monthFilteredOffDays offDays month).find?
          (fun od => normalizeDashDate od.date = k)).map OffDay.description) "" := rfl

/-- C5: the per-day grouping for a (category, month) query lists exactly the
distinct normalized dates appearing in that month's entries or off-days —
no duplicates, sorted descending — and each group carries exactly the
entries normalizing to its date, the sum of their actual quantities, the
off-day flag (true precisely when a matching off-day exists) with the found
off-day's description; a date contributed only by an off-day still appears
as a group with `isOffDay = true` (by the membership characterization its
entry list is then empty). -/
theorem C5_daily_grouping (data : List ProductionEntry) (offDays : List OffDay)
    (category month : String) :
    ((dailyGroups data offDays category month).map DayGroup.date).Nodup ∧
    List.Sorted (fun a b => b ≤ a)
      ((dailyGroups data offDays category month).map DayGroup.date) ∧
    (∀ s, s ∈ (dailyGroups data offDays category month).map DayGroup.date ↔
      ((∃ e ∈ relevantEntries data category, e.date ≠ "" ∧
          jsStartsWith (jsTrim e.date) month = true ∧ normalizeDashDate e.date = s) ∨
       (∃ od ∈ offDays, od.date ≠ "" ∧ jsStartsWith (jsTrim od.date) month = true ∧
          normalizeDashDate od.date = s))) ∧
    (∀ g ∈ dailyGroups data offDays category month,
      (∀ e : ProductionEntry, e ∈ g.entries ↔
        (e ∈ relevantEntries data category ∧ e.date ≠ "" ∧
         jsStartsWith (jsTrim e.date) month = true ∧
         normalizeDashDate e.date = g.date)) ∧
      g.totalActualForDate = (g.entries.map ProductionEntry.actualQuantity).sum ∧
      (g.isOffDay = true ↔ ∃ od ∈ offDays, od.date ≠ "" ∧
         jsStartsWith (jsTrim od.date) month = true ∧
         normalizeDashDate od.date = g.date) ∧
      (g.isOffDay = true → ∃ od ∈ offDays, od.date ≠ "" ∧
         jsStartsWith (jsTrim od.date) month = true ∧
         normalizeDashDate od.date = g.date ∧ g.offDayName = od.description)) ∧
    (∀ od ∈ offDays, od.date ≠ "" → jsStartsWith (jsTrim od.date) month = true →
      ∃ g ∈ dailyGroups data offDays category month,
        g.date = normalizeDashDate od.date ∧ g.isOffDay = true) := by
  have hmd := dailyGroups_map_date data offDays category month
  refine ⟨?_, ?_, ?_, ?_, ?_⟩
  · rw [hmd]
    unfold sortedDates
    exact (List.perm_insertionSort _ _).symm.nodup (List.nodup_dedup _)
  · rw [hmd]
    unfold sortedDates
    exact List.sorted_insertionSort _ _
  · intro s
    rw [hmd, mem_sortedDates]
    constructor
    · rintro (⟨e, he, hs⟩ | ⟨od, ho, hs⟩)
      · obtain ⟨h1, h2, h3⟩ := (mem_monthFilteredEntries _ _ _ _).mp he
        exact Or.inl ⟨e, h1, h2, h3, hs⟩
      · obtain ⟨h1, h2, h3⟩ := (mem_monthFilteredOffDays _ _ _).mp ho
        exact Or.inr ⟨od, h1, h2, h3, hs⟩
    · rintro (⟨e, h1, h2, h3, hs⟩ | ⟨od, h1, h2, h3, hs⟩)
      · exact Or.inl ⟨e, (mem_monthFilteredEntries _ _ _ _).mpr ⟨h1, h2, h3⟩, hs⟩
      · exact Or.inr ⟨od, (mem_monthFilteredOffDays _ _ _).mpr ⟨h1, h2, h3⟩, hs⟩
  · intro g hg
    unfold dailyGroups at hg
    obtain ⟨k, hk, rfl⟩ := List.mem_map.mp hg
    refine ⟨?_, ?_, ?_, ?_⟩
    · intro e
      rw [mkDayGroup_entries, mkDayGroup_date, List.mem_filter,
        mem_monthFilteredEntries]
      simp only [decide_eq_true_eq]
      tauto
    · rw [mkDayGroup_total, mkDayGroup_entries, foldl_add_proj]
      simp
    · rw [mkDayGroup_isOffDay, mkDayGroup_date, List.find?_isSome]
      constructor
      · rintro ⟨od, hom, hpred⟩
        obtain ⟨h1, h2, h3⟩ := (mem_monthFilteredOffDays _ _ _).mp hom
        exact ⟨od, h1, h2, h3, by simpa using hpred⟩
      · rintro ⟨od, h1, h2, h3, hnorm⟩
        exact ⟨od, (mem_monthFilteredOffDays _ _ _).mpr ⟨h1, h2, h3⟩, by simpa using hnorm⟩
    · intro hso
      rw [mkDayGroup_isOffDay] at hso
      obtain ⟨od, hfind⟩ := Option.isSome_iff_exists.mp hso
      have hmem := List.mem_of_find?_eq_some hfind
      have hpred : normalizeDashDate od.date = k := by
        simpa using List.find?_some hfind
      obtain ⟨h1, h2, h3⟩ := (mem_monthFilteredOffDays _ _ _).mp hmem
      refine ⟨od, h1, h2, h3, by rw [mkDayGroup_date]; exact hpred, ?_⟩
      rw [mkDayGroup_offDayName, hfind]
      exact jsStrOr_some_empty od.description
  · intro od hod hd hs
    have hkmem : normalizeDashDate od.date ∈ sortedDates data offDays category month := by
      rw [mem_sortedDates]
      exact Or.inr ⟨od, (mem_monthFilteredOffDays _ _ _).mpr ⟨hod, hd, hs⟩, rfl⟩
    refine ⟨mkDayGroup data offDays category month (normalizeDashDate od.date),
      List.mem_map_of_mem _ hkmem, mkDayGroup_date _ _ _ _ _, ?_⟩
    rw [mkDayGroup_isOffDay, List.find?_isSome]
    exact ⟨od, (mem_monthFilteredOffDays _ _ _).mpr ⟨hod, hd, hs⟩, by simp⟩

/-- C5 witness: the off-day date `2024-01-11`, which no entry matches,
still yields a group flagged as an off-day. -/
theorem C5_daily_grouping_witness :
    ∃ g ∈ dailyGroups [sampleEntry] [sampleOffDay] "A" "2024-01",
      g.date = normalizeDashDate sampleOffDay.date ∧ g.isOffDay = true :=
  (C5_daily_grouping [sampleEntry] [sampleOffDay] "A" "2024-01").2.2.2.2
    sampleOffDay (by decide) (by decide) (by decide)

/-- C9 counterexample: a day group coming from an off-day whose description
is empty emits a placeholder row whose Status cell is the literal
`"Off Day"` — neither the (empty) holiday name nor `"-"` as the claim
states. -/
theorem C9_counterexample :
    csvRows (dailyGroups [] [{ date := "2024-01-05", description := "" }] "A"
        "2024-01")
      = [["2024-01-05", "Off Day", "-", "-", "0", "0", "-", "-", "0"]] ∧
    ("Off Day" : String) ≠ "-" ∧ ("Off Day" : String) ≠ "" := by
  refine ⟨by decide, by decide, by decide⟩

/-- C9 (amended): the CSV consists of the header row `Date, Status,
Process, Product, Plan, Actual, Unit, Batch No, Manpower` followed by one
row per entry of each non-empty day group, and for each zero-entry day
group a single placeholder row whose Status shows the holiday name — or
the literal `"Off Day"` when the name is empty — with all numeric fields
zero. -/
theorem C9_csv_shape (groups : List DayGroup) :
    String.intercalate "," csvHeaders
      = "Date,Status,Process,Product,Plan,Actual,Unit,Batch No,Manpower" ∧
    (csvRows groups).length
      = (groups.map (fun g => if g.entries = [] then 1 else g.entries.length)).sum ∧
    (∀ g ∈ groups, g.entries = [] → placeholderRow g ∈ csvRows groups) ∧
    (∀ g ∈ groups, ∀ d ∈ g.entries, entryRow g d ∈ csvRows groups) ∧
    (∀ g : DayGroup, placeholderRow g
      = [g.date, if g.offDayName = "" then "Off Day" else g.offDayName,
         "-", "-", "0", "0", "-", "-", "0"]) := by
  refine ⟨by decide, ?_, ?_, ?_, ?_⟩
  · induction groups with
    | nil => rfl
    | cons g t ih =>
        by_cases h : g.entries = []
        · simp [csvRows, List.flatMap_cons, h, ih, csvRows] at ih ⊢
          omega
        · simp [csvRows, List.flatMap_cons, h] at ih ⊢
          omega
  · intro g hg h
    unfold csvRows
    exact List.mem_flatMap.mpr ⟨g, hg, by simp [h]⟩
  · intro g hg d hd
    unfold csvRows
    refine List.mem_flatMap.mpr ⟨g, hg, ?_⟩
    have hne : g.entries ≠ [] := by
      intro h
      rw [h] at hd
      cases hd
    simp only [hne, if_false]
    exact List.mem_map_of_mem _ hd
  · intro g
    rfl

/-- C9 witness: the sample month's grouping satisfies the shape. -/
theorem C9_csv_shape_witness :
    (csvRows (dailyGroups [sampleEntry] [sampleOffDay] "A" "2024-01")).length
      = ((dailyGroups [sampleEntry] [sampleOffDay] "A" "2024-01").map
          (fun g => if g.entries = [] then 1 else g.entries.length)).sum :=
  (C9_csv_shape (dailyGroups [sampleEntry] [sampleOffDay] "A" "2024-01")).2.1

/-- A space-free character list is kept whole by the before-first-space
truncation. -/
theorem takeWhile_ne_space_eq_self (l : List Char) (h : ' ' ∉ l) :
    l.takeWhile (fun c => c ≠ ' ') = l := by
  refine List.takeWhile_eq_self_iff.mpr ?_
  intro c hc
  have hne : c ≠ ' ' := fun hceq => h (hceq ▸ hc)
  simpa using hne

/-- Before-first-space truncation of a space-free prefix followed by a
space cuts exactly at that space. -/
theorem takeWhile_append_space (p r : List Char) (h : ' ' ∉ p) :
    (p ++ ' ' :: r).takeWhile (fun c => c ≠ ' ') = p := by
  induction p with
  | nil => simp [List.takeWhile_cons]
  | cons c t ih =>
      have hc : c ≠ ' ' := fun hceq => h (by rw [hceq]; exact List.mem_cons_self _ _)
      have ht : ' ' ∉ t := fun hm => h (List.mem_cons_of_mem _ hm)
      rw [List.cons_append, List.takeWhile_cons, if_pos (by simpa using hc)]
      exact congrArg (c :: .) (ih ht)

/-- C7 counterexample: on a date string carrying a `'T'`-separated time
suffix, the value the entry editor stores (`trim` then text before the
first space) differs from the trimmed first-10-characters prefix that the
claim prescribes: `handleSubmit` stores the full
`"2024-01-05T09:30:00"`. -/
theorem C7_counterexample :
    normalizeInputDate "2024-01-05T09:30:00" = "2024-01-05T09:30:00" ∧
    jsSubstring (jsTrim "2024-01-05T09:30:00") 10 = "2024-01-05" ∧
    ("2024-01-05T09:30:00" : String) ≠ "2024-01-05" ∧
    ((handleSubmit none Tab.Plan
        { date := "2024-01-05T09:30:00", category := "A", process := "P1"
          productName := "Gel", quantity := 1, unit := "KG", manpower := 0
          batchNo := "" } "" [] "u1" "U" "t1" "9"
        { data := [], logs := [] }).2.data.map ProductionEntry.date)
      = ["2024-01-05T09:30:00"] := by
  refine ⟨by decide, by decide, by decide, by decide⟩

/-- C7 (amended): the entry editor normalizes every incoming date by
trimming and taking the text before the first space — that value, not the
first-10-characters prefix, is what creation appends and editing stores —
while the dashboard aggregation normalizes by trimming and truncating to
the first 10 characters; the two normalizations agree on trimmed inputs
that contain no space and have at most 10 characters (plain `YYYY-MM-DD`
keys) and on a 10-character space-free prefix followed by a
space-separated suffix, but not in general (see the counterexample). -/
theorem C7_date_normalization :
    (∀ (f : InputForm) (planId : String) (offDays : List OffDay)
        (userId userName now newId : String) (st : StoreState),
      currentOffDay offDays f.date = none →
      ((handleSubmit none Tab.Plan f planId offDays userId userName now newId
          st).2.data.map ProductionEntry.date)
        = st.data.map ProductionEntry.date ++ [normalizeInputDate f.date]) ∧
    (∀ (f : InputForm) (tab : Tab) (eid userId now : String) (p : ProductionEntry),
      (applyEdit f tab eid userId now p).date
        = if p.id = eid then normalizeInputDate f.date else p.date) ∧
    (∀ s : String, ' ' ∉ (jsTrim s).data → (jsTrim s).data.length ≤ 10 →
      normalizeInputDate s = normalizeDashDate s) ∧
    (∀ (s : String) (p r : List Char), (jsTrim s).data = p ++ ' ' :: r →
      ' ' ∉ p → p.length = 10 →
      normalizeInputDate s = normalizeDashDate s ∧
      normalizeInputDate s = ⟨p⟩) := by
  refine ⟨?_, ?_, ?_, ?_⟩
  · intro f planId offDays userId userName now newId st h
    simp [handleSubmit, h]
  · intro f tab eid userId now p
    by_cases h : p.id = eid
    · simp [applyEdit, h]
    · simp [applyEdit, h]
  · intro s h1 h2
    simp only [normalizeInputDate, normalizeDashDate, jsSplitSpaceHead, jsSubstring]
    rw [takeWhile_ne_space_eq_self _ h1, List.take_of_length_le h2]
  · intro s p r hdata hp hlen
    have h1 : normalizeInputDate s = ⟨p⟩ := by
      simp only [normalizeInputDate, jsSplitSpaceHead]
      rw [hdata, takeWhile_append_space p r hp]
    have h2 : normalizeDashDate s = ⟨p⟩ := by
      simp only [normalizeDashDate, jsSubstring]
      rw [hdata, ← hlen, List.take_left]
    exact ⟨h1.trans h2.symm, h1⟩

/-- C7 witness: on the plain key `"2024-01-05"` and on a space-separated
timestamp the two normalizations coincide. -/
theorem C7_date_normalization_witness :
    (' ' ∉ (jsTrim "2024-01-05").data) ∧ ((jsTrim "2024-01-05").data.length ≤ 10) ∧
    normalizeInputDate "2024-01-05" = normalizeDashDate "2024-01-05" ∧
    normalizeInputDate "2024-01-05 09:30" = normalizeDashDate "2024-01-05 09:30" :=
  ⟨by decide, by decide,
   C7_date_normalization.2.2.1 "2024-01-05" (by decide) (by decide),
   (C7_date_normalization.2.2.2 "2024-01-05 09:30"
     ("2024-01-05".data) (" 09:30".data.tail) (by decide) (by decide)
     (by decide)).1⟩
